import Mathlib

/-!
Verification of the Synthesis-stage normalization-and-ranking engine of the
Context-Aware-Model-Selection edge-IIoT intrusion-detection repository.

The Python sources are shallowly embedded below.  Machine floats are modelled
as exact rationals (`ℚ`); Python functions that can raise (division by zero,
`min` of an empty sequence) are modelled as `Option`-valued functions where
`none` stands for the raised exception.  `synthesis_calculator` embeds
src/synthesis_calculator.py and `pfo_calculator` embeds src/pfo_calculator.py.
-/

namespace synthesis_calculator

/-- Default weights, from the `WEIGHTS` dictionary of synthesis_calculator.py
(lines 19-25).  The five keys of the Python dict are the five fields. -/
structure Weights where
  detection : ℚ
  asc : ℚ
  tco : ℚ
  deployment : ℚ
  efficiency : ℚ

/-- WEIGHTS = {detection: 0.30, asc: 0.25, tco: 0.20, deployment: 0.15,
efficiency: 0.10} from synthesis_calculator.py lines 19-25. -/
def WEIGHTS : Weights := ⟨30/100, 25/100, 20/100, 15/100, 10/100⟩

/-- Embedding of `normalize_score` (synthesis_calculator.py lines 28-49):
min-max normalization to the 0-100 range, with an `inverse` mode for
lower-is-better metrics (TCO), and a fixed value (100 when inverse, else 0)
when `max_val == min_val`.  The Python code performs no clamping. -/
def normalize_score (score min_val max_val : ℚ) (inverse : Bool) : ℚ :=
  if max_val = min_val then (if inverse then 100 else 0)
  else if inverse then ((max_val - score) / (max_val - min_val)) * 100
  else ((score - min_val) / (max_val - min_val)) * 100

/-- Embedding of `calculate_final_score` (synthesis_calculator.py lines
52-78): weighted sum of the five normalized dimension scores.  The Python
default `weights=None` together with `w = weights or WEIGHTS` is modelled by
an `Option Weights` argument resolved with `Option.getD`. -/
def calculate_final_score (detection_norm asc_norm tco_norm deployment_norm
    efficiency_norm : ℚ) (weights : Option Weights) : ℚ :=
  let w := weights.getD WEIGHTS
  w.detection * detection_norm + w.asc * asc_norm + w.tco * tco_norm +
    w.deployment * deployment_norm + w.efficiency * efficiency_norm

/-- Sum of the five weights, as computed by `total_weight =
sum(weights.values())` in `main` (synthesis_calculator.py line 102). -/
def sum_weights (w : Weights) : ℚ :=
  w.detection + w.asc + w.tco + w.deployment + w.efficiency

/-- Embedding of the custom-weight construction step of `main`
(synthesis_calculator.py lines 102-106): if the sum of the supplied weights
deviates from 1 by more than 0.01, a warning is printed (the `Bool` component,
`true` when the warning was emitted) and each weight is divided by the raw
sum.  When the raw sum is zero that division raises `ZeroDivisionError` in
Python, modelled here by `none`.  No other validation is performed. -/
def build_weights (w : Weights) : Option (Weights × Bool) :=
  if 1/100 < |sum_weights w - 1| then
    if sum_weights w = 0 then none
    else some (⟨w.detection / sum_weights w, w.asc / sum_weights w,
      w.tco / sum_weights w, w.deployment / sum_weights w,
      w.efficiency / sum_weights w⟩, true)
  else some (w, false)

/-- One candidate model as collected by the comparison branch of `main`
(synthesis_calculator.py lines 120-134): a name and five raw metric values. -/
structure Model where
  name : String
  detection : ℚ
  asc : ℚ
  tco : ℚ
  deployment : ℚ
  efficiency : ℚ

/-- One entry of the `results` list of `main` (synthesis_calculator.py lines
155-163): the name, the five normalized scores and the final score. -/
structure ResultRow where
  name : String
  detection_norm : ℚ
  asc_norm : ℚ
  tco_norm : ℚ
  deployment_norm : ℚ
  efficiency_norm : ℚ
  final_score : ℚ

/-- Body of the per-model loop of `main` (synthesis_calculator.py lines
146-163): detection and asc are taken unchanged, tco is normalized with
`inverse=True`, deployment and efficiency with the direct orientation, and
the final score is the weighted sum. -/
def normalize_model (tmin tmax dmin dmax emin emax : ℚ)
    (weights : Option Weights) (m : Model) : ResultRow :=
  let det_norm := m.detection
  let asc_norm := m.asc
  let tco_norm := normalize_score m.tco tmin tmax true
  let dep_norm := normalize_score m.deployment dmin dmax false
  let eff_norm := normalize_score m.efficiency emin emax false
  ⟨m.name, det_norm, asc_norm, tco_norm, dep_norm, eff_norm,
    calculate_final_score det_norm asc_norm tco_norm dep_norm eff_norm weights⟩

/-- The min/max computation plus normalization loop of `main`
(synthesis_calculator.py lines 137-163).  Python's `min`/`max` over an empty
sequence raise `ValueError`, modelled by `List.min?`/`List.max?` returning
`none` on the empty list. -/
def normalized_rows (models : List Model) (weights : Option Weights) :
    Option (List ResultRow) := do
  let tmin ← (models.map Model.tco).min?
  let tmax ← (models.map Model.tco).max?
  let dmin ← (models.map Model.deployment).min?
  let dmax ← (models.map Model.deployment).max?
  let emin ← (models.map Model.efficiency).min?
  let emax ← (models.map Model.efficiency).max?
  return models.map (normalize_model tmin tmax dmin dmax emin emax weights)

/-- Comparison used by `results.sort(key=lambda x: x['final_score'],
reverse=True)`: row `a` may precede row `b` when `b`'s final score does not
exceed `a`'s. -/
def scoreGE (a b : ResultRow) : Prop := b.final_score ≤ a.final_score

instance : DecidableRel scoreGE :=
  fun a b => inferInstanceAs (Decidable (b.final_score ≤ a.final_score))

instance : IsTotal ResultRow scoreGE :=
  ⟨fun a b => le_total b.final_score a.final_score⟩

instance : IsTrans ResultRow scoreGE :=
  ⟨fun _ _ _ h1 h2 => le_trans h2 h1⟩

/-- Embedding of the whole comparison path of `main` (synthesis_calculator.py
lines 137-202): normalize, sort by final score descending (Python's
`list.sort` is a stable sort; `List.insertionSort` with `scoreGE` is the
stable descending sort), then pair each row with its 1-based rank as in
`enumerate(results, 1)` (line 200). -/
def rank_models (models : List Model) (weights : Option Weights) :
    Option (List (ℕ × ResultRow)) := do
  let results ← normalized_rows models weights
  let sorted := List.insertionSort scoreGE results
  return sorted.enum.map fun p => (p.1 + 1, p.2)

end synthesis_calculator

namespace pfo_calculator

/-- Embedding of `normalize_score` from pfo_calculator.py lines 77-92:
min-max normalization to the 0-1 range, returning 0 when
`max_val == min_val`. -/
def normalize_score (score min_val max_val : ℚ) : ℚ :=
  if max_val = min_val then 0
  else (score - min_val) / (max_val - min_val)

end pfo_calculator

namespace synthesis_calculator

/-- Concrete weight set with all five weights zero. -/
def zeroWeights : Weights := ⟨0, 0, 0, 0, 0⟩

/-- Concrete weight set with a negative detection weight; the five weights
sum to 1. -/
def negWeights : Weights := ⟨-(1/2), 1/2, 2/5, 3/10, 3/10⟩

/-- The weight set {0.4, 0.3, 0.3, 0.3, 0.3} (sum 1.6) from the spec's
renormalization scenario. -/
def scenarioWeights : Weights := ⟨2/5, 3/10, 3/10, 3/10, 3/10⟩

/-- Concrete candidate model A. -/
def modelA : Model := ⟨"ModelA", 90, 95, 500000, 1/2, 1/500⟩

/-- Concrete candidate model B. -/
def modelB : Model := ⟨"ModelB", 80, 85, 300000, 4/5, 1/250⟩

/-- Concrete candidate sharing its name with `dupB`. -/
def dupA : Model := ⟨"SameName", 90, 95, 500000, 1/2, 1/500⟩

/-- Concrete candidate sharing its name with `dupA`. -/
def dupB : Model := ⟨"SameName", 80, 85, 300000, 4/5, 1/250⟩

/-- C2: normalize_score returns 100 (inverse) or 0 (direct) when max equals
min, and otherwise the linear min-max rescaling ((max-value)/(max-min))*100
in inverse mode and ((value-min)/(max-min))*100 in direct mode. -/
theorem normalize_score_piecewise (v mn mx : ℚ) :
    (mx = mn → normalize_score v mn mx true = 100 ∧
      normalize_score v mn mx false = 0) ∧
    (mx ≠ mn → normalize_score v mn mx true = ((mx - v) / (mx - mn)) * 100 ∧
      normalize_score v mn mx false = ((v - mn) / (mx - mn)) * 100) := by
  constructor
  · intro h
    simp [normalize_score, h]
  · intro h
    simp [normalize_score, h]

/-- Witness for C2 at concrete inputs: the degenerate case with max = min = 2
and the direct case with value 5 on the range [1, 3]. -/
theorem normalize_score_piecewise_witness :
    normalize_score 7 2 2 true = 100 ∧
    normalize_score 5 1 3 false = ((5 - 1) / (3 - 1)) * 100 :=
  ⟨((normalize_score_piecewise 7 2 2).1 rfl).1,
   ((normalize_score_piecewise 5 1 3).2 (by norm_num)).2⟩

/-- C3 counterexample: normalize_score performs no clamping.  At value 200 on
the range [0, 100] the direct-mode score is 200, which exceeds 100. -/
theorem normalize_score_not_clamped :
    normalize_score 200 0 100 false = 200 ∧
    ¬ normalize_score 200 0 100 false ≤ 100 := by
  norm_num [normalize_score]

/-- C3 amended: whenever the value lies between min and max (the situation
produced by the ranking path, where min and max are taken over the candidate
set), the normalized score lies in [0, 100]; no clamping is involved. -/
theorem normalize_score_bounds (v mn mx : ℚ) (inv : Bool)
    (h1 : mn ≤ v) (h2 : v ≤ mx) :
    0 ≤ normalize_score v mn mx inv ∧ normalize_score v mn mx inv ≤ 100 := by
  have key : ∀ a b : ℚ, 0 ≤ a → a ≤ b → 0 < b →
      0 ≤ a / b * 100 ∧ a / b * 100 ≤ 100 := by
    intro a b ha hab hb
    constructor
    · exact mul_nonneg (div_nonneg ha hb.le) (by norm_num)
    · have hd1 : a / b ≤ 1 := (div_le_one hb).mpr hab
      nlinarith
  by_cases h : mx = mn
  · cases inv <;> simp [normalize_score, h]
  · have hlt : mn < mx := lt_of_le_of_ne (le_trans h1 h2) (Ne.symm h)
    have hd : 0 < mx - mn := sub_pos.mpr hlt
    cases inv
    · have := key (v - mn) (mx - mn) (by linarith) (by linarith) hd
      simpa [normalize_score, h] using this
    · have := key (mx - v) (mx - mn) (by linarith) (by linarith) hd
      simpa [normalize_score, h] using this

/-- Witness for C3 amended: value 5 on the range [0, 10], direct mode. -/
theorem normalize_score_bounds_witness :
    0 ≤ normalize_score 5 0 10 false ∧ normalize_score 5 0 10 false ≤ 100 :=
  normalize_score_bounds 5 0 10 false (by norm_num) (by norm_num)

/-- C4: calculate_final_score is the weighted sum of the five normalized
scores under the supplied weights, and uses the default weights
{detection: 0.30, asc: 0.25, tco: 0.20, deployment: 0.15, efficiency: 0.10}
when none are supplied. -/
theorem calculate_final_score_spec (d a t dep e : ℚ) (w : Weights) :
    calculate_final_score d a t dep e (some w) =
      w.detection * d + w.asc * a + w.tco * t + w.deployment * dep +
        w.efficiency * e ∧
    calculate_final_score d a t dep e none =
      (30/100) * d + (25/100) * a + (20/100) * t + (15/100) * dep +
        (10/100) * e :=
  ⟨rfl, rfl⟩

/-- C5 counterexample: the all-zero weight set deviates from sum 1 by more
than 0.01, yet construction produces no renormalized weight set at all — the
division by the zero sum raises `ZeroDivisionError` (modelled by `none`). -/
theorem build_weights_zero_sum_fails :
    1/100 < |sum_weights zeroWeights - 1| ∧ build_weights zeroWeights = none := by
  constructor
  · norm_num [sum_weights, zeroWeights]
  · norm_num [build_weights, sum_weights, zeroWeights]

/-- C5 amended: for every weight set whose sum is nonzero and deviates from 1
by more than 0.01, each weight is divided by the raw sum, the warning flag is
set, and the renormalized weights sum to exactly 1. -/
theorem build_weights_renormalizes (w : Weights) (h0 : sum_weights w ≠ 0)
    (hdev : 1/100 < |sum_weights w - 1|) :
    ∃ w', build_weights w = some (w', true) ∧ sum_weights w' = 1 := by
  refine ⟨⟨w.detection / sum_weights w, w.asc / sum_weights w,
    w.tco / sum_weights w, w.deployment / sum_weights w,
    w.efficiency / sum_weights w⟩, ?_, ?_⟩
  · rw [build_weights, if_pos hdev, if_neg h0]
  · show w.detection / sum_weights w + w.asc / sum_weights w +
      w.tco / sum_weights w + w.deployment / sum_weights w +
      w.efficiency / sum_weights w = 1
    rw [div_add_div_same, div_add_div_same, div_add_div_same, div_add_div_same]
    exact div_self h0

/-- Witness for C5 amended at the spec's scenario weights {0.4, 0.3, 0.3,
0.3, 0.3}, whose sum 1.6 is nonzero and deviates from 1 by more than 0.01. -/
theorem build_weights_renormalizes_witness :
    sum_weights scenarioWeights ≠ 0 ∧
    1/100 < |sum_weights scenarioWeights - 1| ∧
    ∃ w', build_weights scenarioWeights = some (w', true) ∧ sum_weights w' = 1 :=
  ⟨by norm_num [sum_weights, scenarioWeights],
   by norm_num [sum_weights, scenarioWeights, abs_of_nonneg],
   build_weights_renormalizes scenarioWeights
     (by norm_num [sum_weights, scenarioWeights])
     (by norm_num [sum_weights, scenarioWeights, abs_of_nonneg])⟩

/-- C7 counterexample: a weight set containing a negative weight (detection
= -0.5) whose sum is 1 is accepted unchanged by weight construction — no
negativity check exists in the code, so no error is raised. -/
theorem build_weights_accepts_negative :
    negWeights.detection < 0 ∧
    build_weights negWeights = some (negWeights, false) := by
  constructor
  · norm_num [negWeights]
  · norm_num [build_weights, sum_weights, negWeights]

/-- C7 amended: weight construction never checks signs; it fails if and only
if the supplied weights sum to zero (the renormalizing division by zero). -/
theorem build_weights_none_iff (w : Weights) :
    build_weights w = none ↔ sum_weights w = 0 := by
  by_cases h0 : sum_weights w = 0
  · rw [build_weights]
    rw [if_pos (by rw [h0]; norm_num), if_pos h0]
    simp [h0]
  · by_cases hdev : 1/100 < |sum_weights w - 1|
    · rw [build_weights, if_pos hdev, if_neg h0]
      simp [h0]
    · rw [build_weights, if_neg hdev]
      simp [h0]

/-- C8 counterexample: with the roles of min and max swapped (min = 1,
max = 0, still min ≠ max) direct-mode normalize_score is not non-decreasing:
it maps 0 to 100 and 1 to 0. -/
theorem normalize_score_not_monotone_swapped :
    (0:ℚ) ≤ 1 ∧ (1:ℚ) ≠ 0 ∧
    ¬ normalize_score 0 1 0 false ≤ normalize_score 1 1 0 false := by
  norm_num [normalize_score]

/-- C8 amended: for every fixed min < max, direct-mode normalize_score is
monotonically non-decreasing in the value and inverse-mode normalize_score
is monotonically non-increasing in the value. -/
theorem normalize_score_monotone (mn mx : ℚ) (h : mn < mx) (v1 v2 : ℚ)
    (hv : v1 ≤ v2) :
    normalize_score v1 mn mx false ≤ normalize_score v2 mn mx false ∧
    normalize_score v2 mn mx true ≤ normalize_score v1 mn mx true := by
  have hne : mx ≠ mn := ne_of_gt h
  have hd : 0 < mx - mn := sub_pos.mpr h
  constructor
  · simp only [normalize_score, if_neg hne, Bool.false_eq_true, if_false]
    exact mul_le_mul_of_nonneg_right
      ((div_le_div_iff_of_pos_right hd).mpr (by linarith)) (by norm_num)
  · simp only [normalize_score, if_neg hne, if_true]
    exact mul_le_mul_of_nonneg_right
      ((div_le_div_iff_of_pos_right hd).mpr (by linarith)) (by norm_num)

/-- Witness for C8 amended on the range [0, 10] with values 2 ≤ 5. -/
theorem normalize_score_monotone_witness :
    normalize_score 2 0 10 false ≤ normalize_score 5 0 10 false ∧
    normalize_score 5 0 10 true ≤ normalize_score 2 0 10 true :=
  normalize_score_monotone 0 10 (by norm_num) 2 5 (by norm_num)

end synthesis_calculator

/-- C10: on every input, the synthesis calculator's normalizer in direct
(non-inverse) mode equals 100 times the PFO calculator's normalizer,
including the degenerate max = min case where both return 0. -/
theorem synthesis_normalize_refines_pfo (v mn mx : ℚ) :
    synthesis_calculator.normalize_score v mn mx false =
      100 * pfo_calculator.normalize_score v mn mx := by
  by_cases h : mx = mn
  · simp [synthesis_calculator.normalize_score, pfo_calculator.normalize_score, h]
  · simp only [synthesis_calculator.normalize_score,
      pfo_calculator.normalize_score, if_neg h, Bool.false_eq_true, if_false]
    ring

namespace synthesis_calculator

/-- Helper: on a non-empty candidate list the six min/max computations all
succeed and `normalized_rows` returns the mapped rows. -/
lemma normalized_rows_ne_nil (models : List Model) (w : Option Weights)
    (h : models ≠ []) :
    ∃ tmin tmax dmin dmax emin emax,
      (models.map Model.tco).min? = some tmin ∧
      (models.map Model.tco).max? = some tmax ∧
      (models.map Model.deployment).min? = some dmin ∧
      (models.map Model.deployment).max? = some dmax ∧
      (models.map Model.efficiency).min? = some emin ∧
      (models.map Model.efficiency).max? = some emax ∧
      normalized_rows models w =
        some (models.map (normalize_model tmin tmax dmin dmax emin emax w)) := by
  match models with
  | [] => exact absurd rfl h
  | m :: ms => exact ⟨_, _, _, _, _, _, rfl, rfl, rfl, rfl, rfl, rfl, rfl⟩

/-- Helper: `rank_models` on a successfully normalized candidate list sorts
the rows and attaches 1-based ranks. -/
lemma rank_models_eq (models : List Model) (w : Option Weights)
    (rows : List ResultRow) (h : normalized_rows models w = some rows) :
    rank_models models w =
      some ((List.insertionSort scoreGE rows).enum.map fun p => (p.1 + 1, p.2)) := by
  unfold rank_models
  rw [h]
  rfl

/-- Helper: inserting a row into a list commutes with filtering the rows of a
fixed final score: the inserted row, if it has that score, lands in front of
the equal-scored rows already present. -/
lemma filter_score_orderedInsert (c : ℚ) (a : ResultRow) (l : List ResultRow) :
    (List.orderedInsert scoreGE a l).filter (fun b => decide (b.final_score = c)) =
      if a.final_score = c then
        a :: l.filter (fun b => decide (b.final_score = c))
      else l.filter (fun b => decide (b.final_score = c)) := by
  induction l with
  | nil =>
    by_cases hpa : a.final_score = c <;>
      simp [List.orderedInsert, List.filter, hpa]
  | cons b t ih =>
    by_cases hr : scoreGE a b
    · by_cases hpa : a.final_score = c <;>
        simp [List.orderedInsert, hr, List.filter_cons, hpa]
    · have hr' : ¬ b.final_score ≤ a.final_score := hr
      have hba : a.final_score < b.final_score := not_le.mp hr'
      by_cases hpa : a.final_score = c
      · have hpb : b.final_score ≠ c := by
          intro hb
          rw [hpa, hb] at hba
          exact lt_irrefl c hba
        simp [List.orderedInsert, hr, List.filter_cons, hpa, hpb, ih]
      · simp [List.orderedInsert, hr, List.filter_cons, hpa, ih]

/-- Helper: the stable descending sort preserves, for every fixed final
score, the subsequence of rows carrying that score in input order. -/
lemma filter_score_insertionSort (c : ℚ) (l : List ResultRow) :
    (List.insertionSort scoreGE l).filter (fun b => decide (b.final_score = c)) =
      l.filter (fun b => decide (b.final_score = c)) := by
  induction l with
  | nil => rfl
  | cons a t ih =>
    simp only [List.insertionSort]
    rw [filter_score_orderedInsert]
    by_cases hpa : a.final_score = c <;> simp [List.filter_cons, hpa, ih]

/-- Helper: the final scores of the sorted rows are non-increasing. -/
lemma sorted_map_scores (l : List ResultRow) :
    ((List.insertionSort scoreGE l).map ResultRow.final_score).Sorted
      fun a b => b ≤ a :=
  List.Pairwise.map _ (fun _ _ h => h) (List.sorted_insertionSort scoreGE l)

/-- Helper: attaching 1-based positions to a list yields the ranks
1, 2, ..., length in order. -/
lemma ranks_eq_range' (l : List ResultRow) :
    ((l.enum.map fun p => (p.1 + 1, p.2)).map Prod.fst) = List.range' 1 l.length := by
  rw [List.map_map]
  show List.map ((fun n => n + 1) ∘ Prod.fst) l.enum = _
  rw [← List.map_map, List.enum_map_fst, List.range'_eq_map_range]
  simp [Nat.add_comm]

/-- C6 amended: the comparison path fails (raises, producing no ranking at
all) exactly on an empty candidate list — Python's `min` of an empty
sequence raises `ValueError`; there is no dedicated empty-set error and no
duplicate-name check of any kind. -/
theorem rank_models_none_iff (models : List Model) (w : Option Weights) :
    rank_models models w = none ↔ models = [] := by
  constructor
  · intro hnone
    by_contra hne
    obtain ⟨tmin, tmax, dmin, dmax, emin, emax, _, _, _, _, _, _, hrows⟩ :=
      normalized_rows_ne_nil models w hne
    rw [rank_models_eq models w _ hrows] at hnone
    exact Option.noConfusion hnone
  · rintro rfl
    rfl

/-- C6 counterexample: two candidates sharing the name "SameName" are ranked
without any error — the code never checks name uniqueness, so no
`DuplicateNameError` (which does not exist in the code) is raised and a full
ranking is produced. -/
theorem rank_models_duplicate_names_ranked :
    dupA.name = dupB.name ∧ (rank_models [dupA, dupB] none).isSome = true := by
  refine ⟨rfl, ?_⟩
  obtain ⟨tmin, tmax, dmin, dmax, emin, emax, _, _, _, _, _, _, hrows⟩ :=
    normalized_rows_ne_nil [dupA, dupB] none (List.cons_ne_nil _ _)
  rw [rank_models_eq _ _ _ hrows]
  rfl

/-- C9: in a ranking run over a non-empty candidate list, every row's
detection and asc normalized scores are the raw inputs unchanged, while the
tco, deployment and efficiency scores are min-max normalized (tco in inverse
mode) against the minima and maxima taken across the whole candidate set. -/
theorem dims_pass_through (models : List Model) (weights : Option Weights)
    (h : models ≠ []) :
    ∃ tmin tmax dmin dmax emin emax rows,
      (models.map Model.tco).min? = some tmin ∧
      (models.map Model.tco).max? = some tmax ∧
      (models.map Model.deployment).min? = some dmin ∧
      (models.map Model.deployment).max? = some dmax ∧
      (models.map Model.efficiency).min? = some emin ∧
      (models.map Model.efficiency).max? = some emax ∧
      normalized_rows models weights = some rows ∧
      rows.map ResultRow.detection_norm = models.map Model.detection ∧
      rows.map ResultRow.asc_norm = models.map Model.asc ∧
      rows.map ResultRow.tco_norm =
        models.map (fun m => normalize_score m.tco tmin tmax true) ∧
      rows.map ResultRow.deployment_norm =
        models.map (fun m => normalize_score m.deployment dmin dmax false) ∧
      rows.map ResultRow.efficiency_norm =
        models.map (fun m => normalize_score m.efficiency emin emax false) := by
  obtain ⟨tmin, tmax, dmin, dmax, emin, emax, h1, h2, h3, h4, h5, h6, hrows⟩ :=
    normalized_rows_ne_nil models weights h
  refine ⟨tmin, tmax, dmin, dmax, emin, emax, _,
    h1, h2, h3, h4, h5, h6, hrows, ?_, ?_, ?_, ?_, ?_⟩ <;>
    rw [List.map_map] <;> rfl

/-- Witness for C9 on the two concrete candidates `modelA` and `modelB`. -/
theorem dims_pass_through_witness :
    ([modelA, modelB] : List Model) ≠ [] ∧
    (∃ tmin tmax dmin dmax emin emax rows,
      (([modelA, modelB] : List Model).map Model.tco).min? = some tmin ∧
      (([modelA, modelB] : List Model).map Model.tco).max? = some tmax ∧
      (([modelA, modelB] : List Model).map Model.deployment).min? = some dmin ∧
      (([modelA, modelB] : List Model).map Model.deployment).max? = some dmax ∧
      (([modelA, modelB] : List Model).map Model.efficiency).min? = some emin ∧
      (([modelA, modelB] : List Model).map Model.efficiency).max? = some emax ∧
      normalized_rows [modelA, modelB] none = some rows ∧
      rows.map ResultRow.detection_norm =
        ([modelA, modelB] : List Model).map Model.detection ∧
      rows.map ResultRow.asc_norm =
        ([modelA, modelB] : List Model).map Model.asc ∧
      rows.map ResultRow.tco_norm =
        ([modelA, modelB] : List Model).map
          (fun m => normalize_score m.tco tmin tmax true) ∧
      rows.map ResultRow.deployment_norm =
        ([modelA, modelB] : List Model).map
          (fun m => normalize_score m.deployment dmin dmax false) ∧
      rows.map ResultRow.efficiency_norm =
        ([modelA, modelB] : List Model).map
          (fun m => normalize_score m.efficiency emin emax false)) :=
  ⟨List.cons_ne_nil _ _, dims_pass_through [modelA, modelB] none (List.cons_ne_nil _ _)⟩

/-- C1: for every non-empty candidate list the comparison path produces a
ranking whose final scores are in descending order, which is stable (for
every fixed composite score the rows carrying it appear in input order), and
whose ranks are exactly 1..N with rank 1 first. -/
theorem rank_models_sorted_stable (models : List Model) (weights : Option Weights)
    (h : models ≠ []) :
    ∃ rows ranked,
      normalized_rows models weights = some rows ∧
      rank_models models weights = some ranked ∧
      ((ranked.map fun p => p.2.final_score).Sorted fun a b => b ≤ a) ∧
      (∀ c : ℚ, (ranked.map Prod.snd).filter (fun b => decide (b.final_score = c)) =
        rows.filter fun b => decide (b.final_score = c)) ∧
      ranked.map Prod.fst = List.range' 1 models.length := by
  obtain ⟨tmin, tmax, dmin, dmax, emin, emax, _, _, _, _, _, _, hrows⟩ :=
    normalized_rows_ne_nil models weights h
  refine ⟨models.map (normalize_model tmin tmax dmin dmax emin emax weights), _,
    hrows, rank_models_eq models weights _ hrows, ?_, ?_, ?_⟩
  · have hmap : (((List.insertionSort scoreGE
        (models.map (normalize_model tmin tmax dmin dmax emin emax weights))).enum.map
          fun p => (p.1 + 1, p.2)).map fun p => p.2.final_score) =
        (List.insertionSort scoreGE
          (models.map (normalize_model tmin tmax dmin dmax emin emax weights))).map
            ResultRow.final_score := by
      rw [List.map_map]
      show List.map (ResultRow.final_score ∘ Prod.snd) _ = _
      rw [← List.map_map, List.enum_map_snd]
    rw [hmap]
    exact sorted_map_scores _
  · intro c
    have hsnd : (((List.insertionSort scoreGE
        (models.map (normalize_model tmin tmax dmin dmax emin emax weights))).enum.map
          fun p => (p.1 + 1, p.2)).map Prod.snd) =
        List.insertionSort scoreGE
          (models.map (normalize_model tmin tmax dmin dmax emin emax weights)) := by
      rw [List.map_map]
      show List.map Prod.snd _ = _
      rw [List.enum_map_snd]
    rw [hsnd, filter_score_insertionSort]
  · rw [ranks_eq_range']
    congr 1
    rw [(List.perm_insertionSort scoreGE _).length_eq, List.length_map]

/-- Witness for C1 on the two concrete candidates `modelA` and `modelB`. -/
theorem rank_models_sorted_stable_witness :
    ([modelA, modelB] : List Model) ≠ [] ∧
    (∃ rows ranked,
      normalized_rows [modelA, modelB] none = some rows ∧
      rank_models [modelA, modelB] none = some ranked ∧
      ((ranked.map fun p => p.2.final_score).Sorted fun a b => b ≤ a) ∧
      (∀ c : ℚ, (ranked.map Prod.snd).filter (fun b => decide (b.final_score = c)) =
        rows.filter fun b => decide (b.final_score = c)) ∧
      ranked.map Prod.fst = List.range' 1 ([modelA, modelB] : List Model).length) :=
  ⟨List.cons_ne_nil _ _,
   rank_models_sorted_stable [modelA, modelB] none (List.cons_ne_nil _ _)⟩

end synthesis_calculator
